import Mathlib

/-!
Verification development for jupyter-output-monitor
(src/jupyter_output_monitor/_monitor.py).

The Python module is shallowly embedded below:
* the style parsing of the change detector (lines 144-165),
* the screenshot comparison and last-screenshot map update (lines 169-187),
* the sequence of log-file operations (writes and flushes) performed by a
  run of `monitor` (lines 63-192), with browser observations supplied as
  explicit data (the queried input cells, and the output-cell observations
  of each polling iteration of the time-bounded watch window),
* `write_profiled_notebook_copy` (lines 195-282): timestamp conversion,
  grouping of log rows by the most recent execute-input event, the final
  timing statistics, the markdown annotations, and the weaving of
  annotation cells into the notebook cell list.

Python exceptions (ValueError from `str.index`/`int`/tuple unpacking,
KeyError from dict lookup, IndexError from list indexing) are modelled by
`none` / a `crashed` outcome; `sys.exit(1)` by an `exited 1` outcome.
Timestamps are modelled as rational numbers of seconds (the value of
`datetime.total_seconds()`); raw image bytes as lists of naturals.
-/

set_option maxRecDepth 20000

namespace JupyterOutputMonitor

/-- Raw screenshot bytes (the `bytes` returned by `element.screenshot()`). -/
abbrev Bytes := List Nat

/-- `RG_SPECIAL = (143, 56)` (line 18): the reserved two-channel sentinel. -/
def RG_SPECIAL : Int × Int := (143, 56)

/-- Python `str.index(pat, i)` search, by increasing position, with fuel. -/
def pyIndexAux (cs pat : List Char) : Nat → Nat → Option Nat
  | 0, _ => none
  | fuel + 1, i =>
    if List.isPrefixOf pat (cs.drop i) then some i else pyIndexAux cs pat fuel (i + 1)

/-- Python `str.index(pat, start)`: smallest position `≥ start` where `pat`
occurs, `none` when absent (Python raises `ValueError` there). -/
def pyIndex (cs pat : List Char) (start : Nat) : Option Nat :=
  pyIndexAux cs pat (cs.length + 1 - start) start

/-- Python `pat in s` substring test. -/
def containsSub (hay pat : List Char) : Bool :=
  (pyIndex hay pat 0).isSome

/-- Line 146: whether the style string contains `'border-color: rgb('`. -/
def hasToken (style : String) : Bool :=
  containsSub style.data "border-color: rgb(".data

/-- Whitespace stripped by Python `str.strip()` / `int(str)`. -/
def isPySpace (c : Char) : Bool :=
  c == ' ' || c == '\t' || c == '\n' || c == '\r'

/-- Python `str.strip()` on a character list. -/
def pyStrip (cs : List Char) : List Char :=
  ((cs.dropWhile isPySpace).reverse.dropWhile isPySpace).reverse

/-- Value of a nonempty all-digit character list. -/
def digitsVal : List Char → Option Nat
  | [] => none
  | ds =>
    if ds.all Char.isDigit then
      some (ds.foldl (fun acc c => acc * 10 + (c.toNat - 48)) 0)
    else none

/-- Python `int(str)`: strip whitespace, optional sign, decimal digits;
`none` models the `ValueError` raised on any other shape. -/
def pyInt (cs : List Char) : Option Int :=
  match pyStrip cs with
  | '-' :: ds => (digitsVal ds).map (fun n => -(n : Int))
  | '+' :: ds => (digitsVal ds).map (fun n => (n : Int))
  | ds => (digitsVal ds).map (fun n => (n : Int))

/-- Lines 150-153: parse the rgb channel values of the border.
`start_pos = style.index('border-color:')`; `start_pos = style.index('(',
start_pos) + 1`; `end_pos = style.index(')', start_pos)`; then each
comma-separated piece through `int`, unpacked into exactly three values.
`none` models the unhandled `ValueError` of any failing step. -/
def parseRGB (style : String) : Option (Int × Int × Int) :=
  let cs := style.data
  match pyIndex cs "border-color:".data 0 with
  | none => none
  | some p =>
    match pyIndex cs ['('] p with
    | none => none
    | some q =>
      match pyIndex cs [')'] (q + 1) with
      | none => none
      | some e =>
        match (((cs.drop (q + 1)).take (e - (q + 1))).splitOn ',').mapM pyInt with
        | some [r, g, b] => some (r, g, b)
        | _ => none

/-- A record of the event log, with the fields the code writes
(timestamp and screenshot path omitted: no claim depends on them). -/
inductive LogRecord where
  | header : LogRecord
  | execInput (index : Nat) : LogRecord
  | outputChanged (index : Int) : LogRecord
deriving DecidableEq

/-- An operation on the open log file handle. -/
inductive LogOp where
  | write (r : LogRecord) : LogOp
  | flush : LogOp
deriving DecidableEq

/-- Observation of the `div` one level inside an output cell: its inline
`style` attribute (`none` when absent) and the bytes `div.screenshot()`
returns when called. -/
structure DivObs where
  style : Option String
  screenshot : Bytes
deriving DecidableEq

/-- Observation of one element matching `.jp-OutputArea-output`:
visibility, and the nested `div` (`none` when `query_selector` finds none). -/
structure OutputObs where
  visible : Bool
  div : Option DivObs
deriving DecidableEq

/-- The `last_screenshot` dict: monitored index to raw screenshot bytes. -/
abbrev LastMap := Int → Option Bytes

/-- Lines 132-187: handling of a single output cell inside the watch loop.
Returns the log operations performed and `some` updated map, or `none`
for an unhandled exception in the rgb parsing. -/
def processOutputCell (c : OutputObs) (last : LastMap) : List LogOp × Option LastMap :=
  if c.visible = false then ([], some last)
  else
    match c.div with
    | none => ([], some last)
    | some d =>
      match d.style with
      | none => ([], some last)
      | some style =>
        if hasToken style = false then ([], some last)
        else
          match parseRGB style with
          | none => ([], none)
          | some (r, g, b) =>
            if (r, g) ≠ RG_SPECIAL then ([], some last)
            else
              if last b = none ∨ last b ≠ some d.screenshot then
                ([LogOp.write (LogRecord.outputChanged b), LogOp.flush],
                  some (fun j => if j = b then some d.screenshot else last j))
              else ([], some last)

/-- One iteration of the watch loop (lines 130-187): the scan over the
output cells returned by `query_selector_all`. -/
def processScan : List OutputObs → LastMap → List LogOp × Option LastMap
  | [], last => ([], some last)
  | c :: cs, last =>
    match processOutputCell c last with
    | (ops, none) => (ops, none)
    | (ops, some last') =>
      match processScan cs last' with
      | (ops2, r) => (ops ++ ops2, r)

/-- The time-bounded watch window (lines 127-187), abstracted as the finite
list of polling iterations that happen before `wait_after_execute` elapses. -/
def watchOps : List (List OutputObs) → LastMap → List LogOp × Option LastMap
  | [], last => ([], some last)
  | scan :: rest, last =>
    match processScan scan last with
    | (ops, none) => (ops, none)
    | (ops, some last') =>
      match watchOps rest last' with
      | (ops2, r) => (ops ++ ops2, r)

/-- Observation of one element matching `.jp-InputArea-editor`: visibility,
its `text_content()`, and — for cells that get executed — the polling
iterations of the watch window that follows the execution. -/
structure InputRun where
  visible : Bool
  text : String
  scans : List (List OutputObs)
deriving DecidableEq

/-- Lines 99-120: handling of one (visible) input cell of the executor loop:
empty cells are skipped; otherwise the cell is executed, the execute-input
row is written (line 120, with no flush), and the watch window runs. -/
def execCellOps (idx : Nat) (c : InputRun) (last : LastMap) : List LogOp × Option LastMap :=
  if pyStrip c.text.data = [] then ([], some last)
  else
    match watchOps c.scans last with
    | (wops, r) => (LogOp.write (LogRecord.execInput idx) :: wops, r)

/-- Lines 97-189: the executor loop, `enumerate` over the visible input
cells (the enumeration index advances on skipped empty cells too). -/
def runCellsOps : Nat → List InputRun → LastMap → List LogOp × Option LastMap
  | _, [], last => ([], some last)
  | idx, c :: cs, last =>
    match execCellOps idx c last with
    | (ops, none) => (ops, none)
    | (ops, some last') =>
      match runCellsOps (idx + 1) cs last' with
      | (ops2, r) => (ops ++ ops2, r)

/-- Externally visible side effects of a run: directory creation, log-file
operations, and writing the annotated notebook copy. -/
inductive Effect where
  | mkdir : Effect
  | log (op : LogOp) : Effect
  | writeNotebook : Effect
deriving DecidableEq

/-- How a modelled run ends: `exited code` for `sys.exit(code)`; `waiting`
when the input-cell discovery loop is still polling after the supplied
number of iterations; `crashed` for an unhandled exception; `completed`
when control reaches the end of `monitor`. -/
inductive Outcome where
  | exited (code : Nat) : Outcome
  | waiting : Outcome
  | crashed : Outcome
  | completed : Outcome
deriving DecidableEq

/-- The effects a run performed, in order, and how it ended. -/
structure RunTrace where
  effects : List Effect
  outcome : Outcome
deriving DecidableEq

/-- Input data of a run of `monitor`: whether the output directory already
exists, the input cells the page shows at each iteration of the discovery
loop, the number of discovery iterations modelled, and whether
`--notebook-copy` was given. -/
structure RunInput where
  outputExists : Bool
  pageObs : Nat → List InputRun
  fuel : Nat
  copyNotebook : Bool

/-- Line 82: keep only the visible input cells. -/
def visibleCells (cells : List InputRun) : List InputRun :=
  cells.filter (fun c => c.visible)

/-- Lines 74-90: the `while True` discovery loop, polling iteration `n`,
`n+1`, ... until a nonempty visible input cell list shows up; `none` when
that does not happen within the supplied number of iterations. -/
def waitForCells (obs : Nat → List InputRun) : Nat → Nat → Option (List InputRun)
  | 0, _ => none
  | fuel + 1, n =>
    if 0 < (visibleCells (obs n)).length then some (visibleCells (obs n))
    else waitForCells obs fuel (n + 1)

/-- The `last_screenshot = {}` initial map (lines 61, 94). -/
def emptyLast : LastMap := fun _ => none

/-- Lines 49-192: the `monitor` command. Checks the output directory,
creates it, writes and flushes the header row, discovers input cells,
runs the executor loop, then post-processes when requested. -/
def headerEffects : List Effect :=
  [Effect.mkdir, Effect.log (LogOp.write LogRecord.header), Effect.log LogOp.flush]

def monitorRun (inp : RunInput) : RunTrace :=
  if inp.outputExists then ⟨[], Outcome.exited 1⟩
  else
    match waitForCells inp.pageObs inp.fuel 0 with
    | none => ⟨headerEffects, Outcome.waiting⟩
    | some cells =>
      match runCellsOps 0 cells emptyLast with
      | (ops, none) => ⟨headerEffects ++ ops.map Effect.log, Outcome.crashed⟩
      | (ops, some _) =>
        ⟨headerEffects ++ ops.map Effect.log ++
            (if inp.copyNotebook then [Effect.writeNotebook] else []),
          Outcome.completed⟩

/-- The log-file operations among a trace's effects, in order. -/
def logOps (t : RunTrace) : List LogOp :=
  t.effects.filterMap (fun e => match e with | Effect.log op => some op | _ => none)

/-- Replay log operations against a buffered file: `write` appends to the
in-memory buffer, `flush` moves the buffer to disk. Returns (buffer, disk). -/
def applyOps : List LogOp → List LogRecord × List LogRecord → List LogRecord × List LogRecord
  | [], st => st
  | LogOp.write r :: rest, (buf, disk) => applyOps rest (buf ++ [r], disk)
  | LogOp.flush :: rest, (buf, disk) => applyOps rest ([], disk ++ buf)

/-- All records written by a list of log operations, in order. -/
def writtenRecords (ops : List LogOp) : List LogRecord :=
  ops.filterMap (fun op => match op with | LogOp.write r => some r | LogOp.flush => none)

/-! ## Post-processor: `write_profiled_notebook_copy` (lines 195-282) -/

/-- A data row of the parsed event log. After `convertTimes`, `time` is
elapsed seconds since the first record; before it, absolute seconds
(the embedding of the parsed ISO timestamp). -/
structure RawRow where
  time : ℚ
  event : String
  index : Int
  screenshot : String
deriving DecidableEq

/-- Lines 199-206: replace each row's time by the elapsed seconds since
the first row's time. -/
def convertTimes (rows : List RawRow) : List RawRow :=
  match rows with
  | [] => []
  | r0 :: _ => rows.map (fun r => ⟨r.time - r0.time, r.event, r.index, r.screenshot⟩)

/-- An `output-changed` row dict after line 228-230: the row together with
its `dt` (elapsed time since the owning cell's execution). -/
structure OCRow where
  row : RawRow
  dt : ℚ
deriving DecidableEq

/-- The per-cell grouping entry `results[index]` (lines 219-231). -/
structure CellResult where
  execInput : RawRow
  outputChanged : List OCRow
deriving DecidableEq

/-- The `results` ordered dict and `last_executed_cell` (lines 211-212). -/
structure GroupState where
  results : List (Int × CellResult)
  lastExecuted : Option Int
deriving DecidableEq

/-- Ordered-dict lookup on the grouping results. -/
def lookupRes (rs : List (Int × CellResult)) (i : Int) : Option CellResult :=
  (rs.find? (fun p => p.1 == i)).map (fun p => p.2)

/-- Ordered-dict in-place value update at a key (insertion order kept). -/
def updateRes (rs : List (Int × CellResult)) (i : Int) (v : CellResult) :
    List (Int × CellResult) :=
  rs.map (fun p => if p.1 == i then (p.1, v) else p)

/-- Lines 215-231: one iteration of the grouping loop. `none` models the
unhandled `KeyError` of `results[last_executed_cell]` when
`last_executed_cell` is `None` (or not a key). -/
def groupStep (st : GroupState) (r : RawRow) : Option GroupState :=
  if lookupRes st.results r.index = none ∧ r.event = "execute-input" then
    some ⟨st.results ++ [(r.index, ⟨r, []⟩)], some r.index⟩
  else if r.event = "output-changed" then
    match st.lastExecuted with
    | none => none
    | some le =>
      match lookupRes st.results le with
      | none => none
      | some res =>
        some ⟨updateRes st.results le
            ⟨res.execInput, res.outputChanged ++ [⟨r, r.time - res.execInput.time⟩]⟩,
          st.lastExecuted⟩
  else some st

/-- The grouping loop from a given state. -/
def groupRowsAux : GroupState → List RawRow → Option GroupState
  | st, [] => some st
  | st, r :: rest =>
    match groupStep st r with
    | none => none
    | some st' => groupRowsAux st' rest

/-- The grouping loop over the whole (time-converted) log. -/
def groupRows (rows : List RawRow) : Option GroupState :=
  groupRowsAux ⟨[], none⟩ rows

/-- Line 236: `total` = the `dt` of the final change, `None` without one. -/
def totalOf (r : CellResult) : Option ℚ :=
  (r.outputChanged.getLast?).map (fun oc => oc.dt)

/-- Line 237: `n_updates` = the number of changes, `None` without any. -/
def nUpdatesOf (r : CellResult) : Option Nat :=
  if r.outputChanged.length ≠ 0 then some r.outputChanged.length else none

/-- A grouping entry with the final statistics of lines 234-237 attached. -/
structure FinalResult where
  execInput : RawRow
  outputChanged : List OCRow
  total : Option ℚ
  n_updates : Option Nat
deriving DecidableEq

/-- Lines 234-237: attach `total` and `n_updates` to a grouping entry. -/
def finalize (r : CellResult) : FinalResult :=
  ⟨r.execInput, r.outputChanged, totalOf r, nUpdatesOf r⟩

/-- The full log analysis: time conversion, grouping, final statistics. -/
def profileResults (rows : List RawRow) : Option (List (Int × FinalResult)) :=
  (groupRows (convertTimes rows)).map (fun st => st.results.map (fun p => (p.1, finalize p.2)))

/-- `os.path.basename` (line 243). -/
def basename (p : String) : String :=
  match (p.data.splitOn '/').getLast? with
  | some cs => String.mk cs
  | none => ""

/-- Rendering of `f'{x:.2f}'`: two fractional digits of the elapsed time. -/
def formatRat2 (q : ℚ) : String :=
  let n : Int := round (q * 100)
  let m := n.natAbs
  (if n < 0 then "-" else "") ++ toString (m / 100) ++ "." ++
    (if m % 100 < 10 then "0" else "") ++ toString (m % 100)

/-- Lines 241-254: the markdown annotation of one executed cell. `none`
models the unhandled exceptions of formatting `None` (unreachable from
`finalize`d entries). -/
def annotationFor (idx : Int) (r : FinalResult) : Option String :=
  if r.outputChanged.length ≠ 0 then
    match r.outputChanged.getLast?, r.total, r.n_updates with
    | some lastOC, some t, some n =>
      some ("![output screenshot](" ++ basename lastOC.row.screenshot ++ ")\n\n"
        ++ "#### Profiling result for cell " ++ toString idx ++ ": \n * "
        ++ formatRat2 t ++ " seconds elapsed\n * " ++ toString n ++ " output updates\n")
    | _, _, _ => none
  else
    some ("#### Profiling result for cell " ++ toString idx ++ ": \nNo output.\n")

/-- A notebook cell as the weaving step sees it. -/
structure NbCell where
  cell_type : String
  source : String
deriving DecidableEq

/-- `nbformat.v4.new_markdown_cell` as used on line 269. -/
def new_markdown_cell (s : String) : NbCell := ⟨"markdown", s⟩

/-- Line 266: `cell['cell_type'] == 'code' and len(cell['source'])`. -/
def nonemptyCode (c : NbCell) : Bool :=
  c.cell_type == "code" && c.source.length != 0

/-- Lines 262-272: weave the markdown annotations into the cell list,
one right after each nonempty code cell. `k` is the running
`nonempty_code_cell_idx` counter; `none` models the unhandled
`IndexError` when the annotation list is exhausted. -/
def weaveCells (anns : List String) : Nat → List NbCell → Option (List NbCell)
  | _, [] => some []
  | k, c :: rest =>
    if nonemptyCode c then
      match anns.get? k with
      | none => none
      | some a =>
        (weaveCells anns (k + 1) rest).map (fun tail => c :: new_markdown_cell a :: tail)
    else
      (weaveCells anns k rest).map (fun tail => c :: tail)

/-- The number of nonempty code cells of a cell list. -/
def countNonEmptyCode : List NbCell → Nat
  | [] => 0
  | c :: rest => (if nonemptyCode c then 1 else 0) + countNonEmptyCode rest

/-- Drop the cell right after each nonempty code cell: the inverse of the
weaving step on its images. -/
def eraseAfterCode : List NbCell → List NbCell
  | [] => []
  | [c] => [c]
  | c :: d :: rest =>
    if nonemptyCode c then c :: eraseAfterCode rest
    else c :: eraseAfterCode (d :: rest)

/-- Lines 211-231 never fail when an execute-input row comes before the
first output-changed row: `execPrecedes` checks that syntactic condition. -/
def execPrecedes : List RawRow → Bool
  | [] => true
  | r :: rest =>
    if r.event = "execute-input" then true
    else if r.event = "output-changed" then false
    else execPrecedes rest

/-! ## Claims -/

/-- C1: during the watch loop, for a monitored output index (a visible
output cell whose style parses to the sentinel pair and index `b`), a
change event is logged and the stored bytes updated iff no bytes are
stored for `b` or the new bytes differ; after logging, the stored bytes
for `b` equal the newly captured bytes (this also holds on the skip
branch, where the stored bytes already equal the captured bytes). -/
theorem claim1_change_detection (d : DivObs) (sty : String) (b : Int) (last : LastMap)
    (hsty : d.style = some sty) (htok : hasToken sty = true)
    (hparse : parseRGB sty = some (143, 56, b)) :
    ((processOutputCell ⟨true, some d⟩ last).1
        = [LogOp.write (LogRecord.outputChanged b), LogOp.flush]
      ↔ (last b = none ∨ last b ≠ some d.screenshot)) ∧
    ((last b = none ∨ last b ≠ some d.screenshot) →
      processOutputCell ⟨true, some d⟩ last
        = ([LogOp.write (LogRecord.outputChanged b), LogOp.flush],
            some (fun j => if j = b then some d.screenshot else last j))) ∧
    (¬(last b = none ∨ last b ≠ some d.screenshot) →
      processOutputCell ⟨true, some d⟩ last = ([], some last)) ∧
    (∀ l, (processOutputCell ⟨true, some d⟩ last).2 = some l → l b = some d.screenshot) := by
  have hstep : processOutputCell ⟨true, some d⟩ last
      = (if last b = none ∨ last b ≠ some d.screenshot then
          ([LogOp.write (LogRecord.outputChanged b), LogOp.flush],
            some (fun j => if j = b then some d.screenshot else last j))
        else ([], some last)) := by
    simp [processOutputCell, hsty, htok, hparse, RG_SPECIAL]
  by_cases hcond : last b = none ∨ last b ≠ some d.screenshot
  · rw [if_pos hcond] at hstep
    refine ⟨?_, fun _ => hstep, fun h => absurd hcond h, ?_⟩
    · rw [hstep]; simpa using hcond
    · intro l hl
      rw [hstep] at hl
      simp only [Option.some.injEq] at hl
      subst hl; simp
  · rw [if_neg hcond] at hstep
    refine ⟨?_, fun h => absurd h hcond, fun _ => hstep, ?_⟩
    · rw [hstep]; simpa using hcond
    · intro l hl
      rw [hstep] at hl
      simp only [Option.some.injEq] at hl
      subst hl
      push_neg at hcond
      exact hcond.2

/-- C1 witness: a fresh monitored index gets an event and the map update. -/
theorem claim1_witness :
    processOutputCell ⟨true, some ⟨some "border-color: rgb(143, 56, 7)", [1, 2]⟩⟩
        (fun _ => none)
      = ([LogOp.write (LogRecord.outputChanged 7), LogOp.flush],
          some (fun j => if j = 7 then some [1, 2] else none)) :=
  (claim1_change_detection ⟨some "border-color: rgb(143, 56, 7)", [1, 2]⟩
      "border-color: rgb(143, 56, 7)" 7 (fun _ => none) rfl (by decide) (by decide)).2.1
    (Or.inl rfl)

/-- C2: a scanned output region whose style lacks the border-color token
(or is absent), or whose parsed first two channels are not the reserved
pair `(143, 56)`, never produces a change event and leaves the
last-screenshot map unmodified, whatever the third channel is; and any
event a region does produce carries, as monitored index, the third
channel of a successful sentinel parse of its style. -/
theorem claim2_sentinel_filter (c : OutputObs) (last : LastMap) :
    (∀ d, c.div = some d → d.style = none → processOutputCell c last = ([], some last)) ∧
    (∀ d sty, c.div = some d → d.style = some sty → hasToken sty = false →
      processOutputCell c last = ([], some last)) ∧
    (∀ d sty r g b, c.div = some d → d.style = some sty → parseRGB sty = some (r, g, b) →
      (r, g) ≠ RG_SPECIAL → processOutputCell c last = ([], some last)) ∧
    (∀ rcd, LogOp.write rcd ∈ (processOutputCell c last).1 →
      ∃ d sty b, c.div = some d ∧ d.style = some sty ∧ hasToken sty = true ∧
        parseRGB sty = some (143, 56, b) ∧ rcd = LogRecord.outputChanged b) := by
  obtain ⟨v, dv⟩ := c
  refine ⟨?_, ?_, ?_, ?_⟩
  · intro d hd hst
    simp only at hd
    subst hd
    cases v
    · rfl
    · simp [processOutputCell, hst]
  · intro d sty hd hst htok
    simp only at hd
    subst hd
    cases v
    · rfl
    · simp [processOutputCell, hst, htok]
  · intro d sty r g b hd hst hparse hrg
    simp only at hd
    subst hd
    cases v
    · rfl
    · by_cases htok : hasToken sty = true
      · simp [processOutputCell, hst, htok, hparse, hrg]
      · simp [processOutputCell, hst, Bool.eq_false_iff.mpr htok]
  · intro rcd hmem
    cases v
    · simp [processOutputCell] at hmem
    · cases dv with
      | none => simp [processOutputCell] at hmem
      | some d =>
        obtain ⟨stOpt, scr⟩ := d
        cases stOpt with
        | none => simp [processOutputCell] at hmem
        | some sty =>
          by_cases htok : hasToken sty = true
          · cases hparse : parseRGB sty with
            | none => simp [processOutputCell, htok, hparse] at hmem
            | some rgb =>
              obtain ⟨r, g, b⟩ := rgb
              by_cases hrg : (r, g) = RG_SPECIAL
              · have hr : r = 143 ∧ g = 56 := by
                  simpa [RG_SPECIAL, Prod.ext_iff] using hrg
                refine ⟨⟨some sty, scr⟩, sty, b, rfl, rfl, htok, ?_, ?_⟩
                · rw [hparse, hr.1, hr.2]
                · by_cases hcond : last b = none ∨ last b ≠ some scr
                  · simp [processOutputCell, htok, hparse, hrg, hcond] at hmem
                    simpa using hmem
                  · simp [processOutputCell, htok, hparse, hrg, hcond] at hmem
              · simp [processOutputCell, htok, hparse, hrg] at hmem
          · simp [processOutputCell, Bool.eq_false_iff.mpr htok] at hmem

/-- C2 witness: a style without the token, and a style with a non-sentinel
channel pair, both leave the state untouched. -/
theorem claim2_witness :
    processOutputCell ⟨true, some ⟨some "color: red", [1]⟩⟩ (fun _ => none)
        = ([], some (fun _ => none)) ∧
    processOutputCell ⟨true, some ⟨some "border-color: rgb(1, 2, 3)", [1]⟩⟩ (fun _ => none)
        = ([], some (fun _ => none)) :=
  ⟨(claim2_sentinel_filter ⟨true, some ⟨some "color: red", [1]⟩⟩ (fun _ => none)).2.1
      ⟨some "color: red", [1]⟩ "color: red" rfl rfl (by decide),
    (claim2_sentinel_filter ⟨true, some ⟨some "border-color: rgb(1, 2, 3)", [1]⟩⟩
        (fun _ => none)).2.2.1
      ⟨some "border-color: rgb(1, 2, 3)", [1]⟩ "border-color: rgb(1, 2, 3)" 1 2 3
      rfl rfl (by decide) (by decide)⟩

/-- C3: on a log `execute-input(0, t0)`, `output-changed(0, t1)`,
`output-changed(0, t2)`, the post-processor converts the times to elapsed
seconds since the first record, groups both output-changed records under
cell 0, and computes `total = t2 - t0` and `n_updates = 2` for cell 0. -/
theorem claim3_profile_grouping (t0 t1 t2 : ℚ) (s0 s1 s2 : String) :
    profileResults
        [⟨t0, "execute-input", 0, s0⟩, ⟨t1, "output-changed", 0, s1⟩,
          ⟨t2, "output-changed", 0, s2⟩]
      = some [(0,
          ⟨⟨0, "execute-input", 0, s0⟩,
            [⟨⟨t1 - t0, "output-changed", 0, s1⟩, t1 - t0⟩,
              ⟨⟨t2 - t0, "output-changed", 0, s2⟩, t2 - t0⟩],
            some (t2 - t0), some 2⟩)] := by
  have h : profileResults
        [⟨t0, "execute-input", 0, s0⟩, ⟨t1, "output-changed", 0, s1⟩,
          ⟨t2, "output-changed", 0, s2⟩]
      = some [(0,
          ⟨⟨t0 - t0, "execute-input", 0, s0⟩,
            [⟨⟨t1 - t0, "output-changed", 0, s1⟩, (t1 - t0) - (t0 - t0)⟩,
              ⟨⟨t2 - t0, "output-changed", 0, s2⟩, (t2 - t0) - (t0 - t0)⟩],
            some ((t2 - t0) - (t0 - t0)), some 2⟩)] := rfl
  rw [h]
  simp [sub_self, sub_zero]

theorem eraseAfterCode_cons_not (c : NbCell) (tail : List NbCell)
    (h : nonemptyCode c = false) :
    eraseAfterCode (c :: tail) = c :: eraseAfterCode tail := by
  cases tail <;> simp [eraseAfterCode, h]

theorem eraseAfterCode_cons_code (c d : NbCell) (tail : List NbCell)
    (h : nonemptyCode c = true) :
    eraseAfterCode (c :: d :: tail) = c :: eraseAfterCode tail := by
  simp [eraseAfterCode, h]

theorem weaveCells_length (anns : List String) :
    ∀ (cells : List NbCell) (k : Nat) (out : List NbCell),
      weaveCells anns k cells = some out →
      out.length = cells.length + countNonEmptyCode cells := by
  intro cells
  induction cells with
  | nil =>
    intro k out h
    simp [weaveCells] at h
    simp [← h, countNonEmptyCode]
  | cons c rest ih =>
    intro k out h
    by_cases hc : nonemptyCode c
    · simp only [weaveCells, hc, if_true] at h
      cases hg : anns.get? k with
      | none => rw [hg] at h; exact absurd h (by simp)
      | some a =>
        rw [hg] at h
        rw [Option.map_eq_some'] at h
        obtain ⟨tail, htail, hout⟩ := h
        subst hout
        have := ih (k + 1) tail htail
        simp [countNonEmptyCode, hc, this]
        omega
    · simp only [weaveCells, hc, Bool.false_eq_true, if_false] at h
      rw [Option.map_eq_some'] at h
      obtain ⟨tail, htail, hout⟩ := h
      subst hout
      have := ih k tail htail
      simp [countNonEmptyCode, hc, this]
      omega

theorem weaveCells_erase (anns : List String) :
    ∀ (cells : List NbCell) (k : Nat) (out : List NbCell),
      weaveCells anns k cells = some out → eraseAfterCode out = cells := by
  intro cells
  induction cells with
  | nil =>
    intro k out h
    simp [weaveCells] at h
    subst h
    rfl
  | cons c rest ih =>
    intro k out h
    by_cases hc : nonemptyCode c
    · simp only [weaveCells, hc, if_true] at h
      cases hg : anns.get? k with
      | none => rw [hg] at h; exact absurd h (by simp)
      | some a =>
        rw [hg] at h
        rw [Option.map_eq_some'] at h
        obtain ⟨tail, htail, hout⟩ := h
        subst hout
        rw [eraseAfterCode_cons_code c _ tail hc, ih (k + 1) tail htail]
    · simp only [weaveCells, hc, Bool.false_eq_true, if_false] at h
      rw [Option.map_eq_some'] at h
      obtain ⟨tail, htail, hout⟩ := h
      subst hout
      rw [eraseAfterCode_cons_not c tail (Bool.eq_false_iff.mpr hc), ih k tail htail]

theorem weaveCells_none (anns : List String) :
    ∀ (cells : List NbCell) (k : Nat),
      anns.length < k + countNonEmptyCode cells → 0 < countNonEmptyCode cells →
      weaveCells anns k cells = none := by
  intro cells
  induction cells with
  | nil =>
    intro k hlt hpos
    simp [countNonEmptyCode] at hpos
  | cons c rest ih =>
    intro k hlt hpos
    by_cases hc : nonemptyCode c
    · simp only [weaveCells, hc, if_true]
      cases hg : anns.get? k with
      | none => rfl
      | some a =>
        have hk : k < anns.length := by
          by_contra hk
          rw [List.get?_eq_none.mpr (by omega)] at hg
          exact absurd hg (by simp)
        have h1 : anns.length < (k + 1) + countNonEmptyCode rest := by
          simp [countNonEmptyCode, hc] at hlt
          omega
        have h2 : 0 < countNonEmptyCode rest := by
          simp [countNonEmptyCode, hc] at hlt
          omega
        rw [ih (k + 1) h1 h2]
        rfl
    · simp only [weaveCells, hc, Bool.false_eq_true, if_false]
      have hcount : countNonEmptyCode (c :: rest) = countNonEmptyCode rest := by
        simp [countNonEmptyCode, hc]
      rw [hcount] at hlt hpos
      rw [ih k hlt hpos]
      rfl

/-- C4: weaving inserts exactly one synthesized markdown cell right after
each nonempty code cell — the output has `countNonEmptyCode` extra cells,
and dropping the cell right after each nonempty code cell recovers the
original cells in their original order — and when fewer profiling entries
than nonempty code cells are available the merge fails with the
(unhandled) index error, modelled as `none`. -/
theorem claim4_weave (cells : List NbCell) (anns : List String) :
    (∀ out, weaveCells anns 0 cells = some out →
      out.length = cells.length + countNonEmptyCode cells ∧ eraseAfterCode out = cells) ∧
    (anns.length < countNonEmptyCode cells → weaveCells anns 0 cells = none) := by
  refine ⟨fun out h => ⟨weaveCells_length anns cells 0 out h,
    weaveCells_erase anns cells 0 out h⟩, fun hlt => ?_⟩
  exact weaveCells_none anns cells 0 (by omega) (by omega)

/-- C4 witness: one nonempty code cell with one annotation weaves; with no
annotations the merge fails. -/
theorem claim4_witness :
    eraseAfterCode [⟨"code", "x"⟩, ⟨"markdown", "a"⟩] = [⟨"code", "x"⟩] ∧
    weaveCells [] 0 [⟨"code", "x"⟩] = none :=
  ⟨((claim4_weave [⟨"code", "x"⟩] ["a"]).1
        [⟨"code", "x"⟩, ⟨"markdown", "a"⟩] (by decide)).2,
    (claim4_weave [⟨"code", "x"⟩] []).2 (by decide)⟩

/-- Log-operation lists the monitor emits: a sequence of chunks, where an
execute-input write stands alone (line 120 has no flush) and the header
and output-changed writes are immediately followed by a flush
(lines 65-66 and 182-183). -/
inductive Chunked : List LogOp → Prop where
  | nil : Chunked []
  | exec (k : Nat) (ops : List LogOp) : Chunked ops →
      Chunked (LogOp.write (LogRecord.execInput k) :: ops)
  | changed (b : Int) (ops : List LogOp) : Chunked ops →
      Chunked (LogOp.write (LogRecord.outputChanged b) :: LogOp.flush :: ops)
  | headerChunk (ops : List LogOp) : Chunked ops →
      Chunked (LogOp.write LogRecord.header :: LogOp.flush :: ops)

theorem Chunked.append {a b : List LogOp} (ha : Chunked a) (hb : Chunked b) :
    Chunked (a ++ b) := by
  induction ha with
  | nil => exact hb
  | exec k ops _ ih => exact Chunked.exec k _ ih
  | changed i ops _ ih => exact Chunked.changed i _ ih
  | headerChunk ops _ ih => exact Chunked.headerChunk _ ih

theorem chunked_head_not_flush {ops : List LogOp} (h : Chunked ops) :
    ops.head? ≠ some LogOp.flush := by
  cases h <;> simp

theorem chunked_processOutputCell (c : OutputObs) (last : LastMap) :
    Chunked (processOutputCell c last).1 := by
  unfold processOutputCell
  repeat' split
  all_goals first
    | exact Chunked.nil
    | exact Chunked.changed _ _ Chunked.nil

theorem chunked_processScan (cells : List OutputObs) :
    ∀ last : LastMap, Chunked (processScan cells last).1 := by
  induction cells with
  | nil => intro last; exact Chunked.nil
  | cons c cs ih =>
    intro last
    have hc := chunked_processOutputCell c last
    cases hpc : processOutputCell c last with
    | mk ops r =>
      rw [hpc] at hc
      cases r with
      | none => simpa [processScan, hpc] using hc
      | some last' =>
        have hrec := ih last'
        cases hps : processScan cs last' with
        | mk ops2 r2 =>
          rw [hps] at hrec
          simpa [processScan, hpc, hps] using Chunked.append hc hrec

theorem chunked_watchOps (scans : List (List OutputObs)) :
    ∀ last : LastMap, Chunked (watchOps scans last).1 := by
  induction scans with
  | nil => intro last; exact Chunked.nil
  | cons scan rest ih =>
    intro last
    have hc := chunked_processScan scan last
    cases hpc : processScan scan last with
    | mk ops r =>
      rw [hpc] at hc
      cases r with
      | none => simpa [watchOps, hpc] using hc
      | some last' =>
        have hrec := ih last'
        cases hps : watchOps rest last' with
        | mk ops2 r2 =>
          rw [hps] at hrec
          simpa [watchOps, hpc, hps] using Chunked.append hc hrec

theorem chunked_execCellOps (idx : Nat) (c : InputRun) (last : LastMap) :
    Chunked (execCellOps idx c last).1 := by
  unfold execCellOps
  split
  · exact Chunked.nil
  · have hw := chunked_watchOps c.scans last
    cases hwo : watchOps c.scans last with
    | mk wops r =>
      rw [hwo] at hw
      exact Chunked.exec idx _ hw

theorem chunked_runCellsOps (cells : List InputRun) :
    ∀ (idx : Nat) (last : LastMap), Chunked (runCellsOps idx cells last).1 := by
  induction cells with
  | nil => intro idx last; exact Chunked.nil
  | cons c cs ih =>
    intro idx last
    have hc := chunked_execCellOps idx c last
    cases hec : execCellOps idx c last with
    | mk ops r =>
      rw [hec] at hc
      cases r with
      | none => simpa [runCellsOps, hec] using hc
      | some last' =>
        have hrec := ih (idx + 1) last'
        cases hrc : runCellsOps (idx + 1) cs last' with
        | mk ops2 r2 =>
          rw [hrc] at hrec
          simpa [runCellsOps, hec, hrc] using Chunked.append hc hrec

theorem logOps_map_log (ops : List LogOp) :
    List.filterMap (fun e => match e with | Effect.log op => some op | _ => none)
        (ops.map Effect.log) = ops := by
  induction ops with
  | nil => rfl
  | cons op rest ih => simp [ih]

theorem chunked_monitorRun (inp : RunInput) : Chunked (logOps (monitorRun inp)) := by
  unfold monitorRun
  split
  · exact Chunked.nil
  · cases hw : waitForCells inp.pageObs inp.fuel 0 with
    | none => exact Chunked.headerChunk _ Chunked.nil
    | some cells =>
      dsimp only
      have hr := chunked_runCellsOps cells 0 emptyLast
      cases hrc : runCellsOps 0 cells emptyLast with
      | mk ops r =>
        rw [hrc] at hr
        cases r with
        | none =>
          simp only [logOps, headerEffects, List.filterMap_append, logOps_map_log]
          exact Chunked.headerChunk _ (by simpa using hr)
        | some last' =>
          simp only [logOps, headerEffects, List.filterMap_append, logOps_map_log]
          have htail : List.filterMap
              (fun e => match e with | Effect.log op => some op | _ => none)
              (if inp.copyNotebook then [Effect.writeNotebook] else []) = [] := by
            split <;> rfl
          rw [htail]
          exact Chunked.headerChunk _ (by simpa using hr)

theorem chunked_flush_follows {ops : List LogOp} (h : Chunked ops) :
    ∀ i : Nat,
      (ops.get? i = some (LogOp.write LogRecord.header) →
        ops.get? (i + 1) = some LogOp.flush) ∧
      (∀ b, ops.get? i = some (LogOp.write (LogRecord.outputChanged b)) →
        ops.get? (i + 1) = some LogOp.flush) ∧
      (∀ k, ops.get? i = some (LogOp.write (LogRecord.execInput k)) →
        ops.get? (i + 1) ≠ some LogOp.flush) := by
  induction h with
  | nil => intro i; simp
  | exec k ops hc ih =>
    intro i
    cases i with
    | zero =>
      refine ⟨by simp, fun b => by simp, fun k' _ => ?_⟩
      cases hc <;> simp
    | succ j => simpa using ih j
  | changed b ops hc ih =>
    intro i
    match i with
    | 0 => exact ⟨by simp, fun b' _ => rfl, fun k h => by simp at h⟩
    | 1 => exact ⟨by simp, fun b' h => by simp at h, fun k h => by simp at h⟩
    | j + 2 => simpa using ih j
  | headerChunk ops hc ih =>
    intro i
    match i with
    | 0 => exact ⟨fun _ => rfl, fun b' h => by simp at h, fun k h => by simp at h⟩
    | 1 => exact ⟨by simp, fun b' h => by simp at h, fun k h => by simp at h⟩
    | j + 2 => simpa using ih j

/-- C5 as amended: the header row and every output-changed row are flushed
immediately after being written, but an execute-input row is never
immediately flushed — it reaches disk only at a later flush or when the
file is closed at the end of the run. -/
theorem claim5_amended_flush (inp : RunInput) (i : Nat) :
    ((logOps (monitorRun inp)).get? i = some (LogOp.write LogRecord.header) →
      (logOps (monitorRun inp)).get? (i + 1) = some LogOp.flush) ∧
    (∀ b, (logOps (monitorRun inp)).get? i = some (LogOp.write (LogRecord.outputChanged b)) →
      (logOps (monitorRun inp)).get? (i + 1) = some LogOp.flush) ∧
    (∀ k, (logOps (monitorRun inp)).get? i = some (LogOp.write (LogRecord.execInput k)) →
      (logOps (monitorRun inp)).get? (i + 1) ≠ some LogOp.flush) :=
  chunked_flush_follows (chunked_monitorRun inp) i

/-- C5 counterexample: in a run with one nonempty input cell and no output
changes, the execute-input record is written but never flushed: after all
operations it is still in the buffer and absent from the records
delivered to disk, so not every record is flushed immediately after being
written. -/
theorem claim5_counterexample :
    logOps (monitorRun ⟨false, fun _ => [⟨true, "x", []⟩], 1, false⟩)
      = [LogOp.write LogRecord.header, LogOp.flush,
          LogOp.write (LogRecord.execInput 0)] ∧
    writtenRecords (logOps (monitorRun ⟨false, fun _ => [⟨true, "x", []⟩], 1, false⟩))
      = [LogRecord.header, LogRecord.execInput 0] ∧
    (applyOps (logOps (monitorRun ⟨false, fun _ => [⟨true, "x", []⟩], 1, false⟩)) ([], [])).2
      = [LogRecord.header] := by
  refine ⟨by decide, by decide, by decide⟩

/-- C5 witness for the amended statement, on a run with one output change:
the header and output-changed writes are followed by a flush, the
execute-input write is not. -/
theorem claim5_witness :
    (logOps (monitorRun ⟨false,
        fun _ => [⟨true, "x", [[⟨true, some ⟨some "border-color: rgb(143, 56, 2)", [9]⟩⟩]]⟩],
        1, false⟩)).get? 1 = some LogOp.flush ∧
    (logOps (monitorRun ⟨false,
        fun _ => [⟨true, "x", [[⟨true, some ⟨some "border-color: rgb(143, 56, 2)", [9]⟩⟩]]⟩],
        1, false⟩)).get? 4 = some LogOp.flush ∧
    (logOps (monitorRun ⟨false,
        fun _ => [⟨true, "x", [[⟨true, some ⟨some "border-color: rgb(143, 56, 2)", [9]⟩⟩]]⟩],
        1, false⟩)).get? 3 ≠ some LogOp.flush :=
  ⟨(claim5_amended_flush ⟨false,
        fun _ => [⟨true, "x", [[⟨true, some ⟨some "border-color: rgb(143, 56, 2)", [9]⟩⟩]]⟩],
        1, false⟩ 0).1 (by decide),
    (claim5_amended_flush ⟨false,
        fun _ => [⟨true, "x", [[⟨true, some ⟨some "border-color: rgb(143, 56, 2)", [9]⟩⟩]]⟩],
        1, false⟩ 3).2.1 2 (by decide),
    (claim5_amended_flush ⟨false,
        fun _ => [⟨true, "x", [[⟨true, some ⟨some "border-color: rgb(143, 56, 2)", [9]⟩⟩]]⟩],
        1, false⟩ 2).2.2 0 (by decide)⟩

/-- C6: when the output directory already exists the run exits with status
1 having performed no effect at all (no directory creation, no log
record, no file write); and status 1 on an existing directory is the only
exit the program defines. -/
theorem claim6_exit_behavior (inp : RunInput) :
    (inp.outputExists = true → monitorRun inp = ⟨[], Outcome.exited 1⟩) ∧
    (∀ code, (monitorRun inp).outcome = Outcome.exited code →
      code = 1 ∧ inp.outputExists = true ∧ (monitorRun inp).effects = []) := by
  by_cases h : inp.outputExists
  · refine ⟨fun _ => by simp [monitorRun, h], fun code hc => ?_⟩
    simp [monitorRun, h] at hc ⊢
    omega
  · refine ⟨fun hx => absurd hx h, fun code hc => ?_⟩
    exfalso
    simp only [monitorRun, h, Bool.false_eq_true, if_false] at hc
    cases hw : waitForCells inp.pageObs inp.fuel 0 with
    | none => rw [hw] at hc; simp at hc
    | some cells =>
      rw [hw] at hc
      dsimp only at hc
      cases hrc : runCellsOps 0 cells emptyLast with
      | mk ops r =>
        rw [hrc] at hc
        cases r with
        | none => simp at hc
        | some last' => simp at hc

/-- C6 witness: an existing output directory gives exit 1 and no effects. -/
theorem claim6_witness :
    monitorRun ⟨true, fun _ => [], 0, false⟩ = ⟨[], Outcome.exited 1⟩ :=
  (claim6_exit_behavior ⟨true, fun _ => [], 0, false⟩).1 rfl

theorem waitForCells_none_of_all_empty (obs : Nat → List InputRun)
    (h : ∀ m, visibleCells (obs m) = []) :
    ∀ (fuel n : Nat), waitForCells obs fuel n = none := by
  intro fuel
  induction fuel with
  | zero => intro n; rfl
  | succ f ih =>
    intro n
    simp only [waitForCells, h n, List.length_nil]
    exact ih (n + 1)

theorem waitForCells_isSome (obs : Nat → List InputRun) :
    ∀ (fuel start : Nat),
      (∃ k, k < fuel ∧ visibleCells (obs (start + k)) ≠ []) →
      (waitForCells obs fuel start).isSome = true := by
  intro fuel
  induction fuel with
  | zero =>
    intro start h
    obtain ⟨k, hk, _⟩ := h
    omega
  | succ f ih =>
    intro start h
    by_cases h0 : 0 < (visibleCells (obs start)).length
    · simp [waitForCells, h0]
    · obtain ⟨k, hk, hne⟩ := h
      have hsz : visibleCells (obs start) = [] := by
        cases hv : visibleCells (obs start) with
        | nil => rfl
        | cons a l => rw [hv] at h0; simp at h0
      cases k with
      | zero => simp at hne; exact absurd hsz hne
      | succ k' =>
        have heq : start + (k' + 1) = (start + 1) + k' := by omega
        rw [heq] at hne
        have := ih (start + 1) ⟨k', by omega, hne⟩
        simpa [waitForCells, h0] using this

/-- C8 as amended: the discovery loop does have a stop condition — it exits
as soon as a visible input cell shows up, and polls forever only when
none ever does; after discovery the executor loop is a finite iteration,
so the run ends by itself, and whenever it completes with
`--notebook-copy` given the post-processing step does execute. -/
theorem claim8_amended_termination (inp : RunInput) :
    ((∀ m, visibleCells (inp.pageObs m) = []) →
      waitForCells inp.pageObs inp.fuel 0 = none ∧
        (inp.outputExists = false → (monitorRun inp).outcome = Outcome.waiting)) ∧
    ((∃ n, n < inp.fuel ∧ visibleCells (inp.pageObs n) ≠ []) →
      inp.outputExists = false → (monitorRun inp).outcome ≠ Outcome.waiting) ∧
    ((monitorRun inp).outcome = Outcome.completed → inp.copyNotebook = true →
      Effect.writeNotebook ∈ (monitorRun inp).effects) := by
  refine ⟨?_, ?_, ?_⟩
  · intro hempty
    have hw := waitForCells_none_of_all_empty inp.pageObs hempty inp.fuel 0
    exact ⟨hw, fun hx => by simp [monitorRun, hx, hw]⟩
  · intro hex hx
    have hs := waitForCells_isSome inp.pageObs inp.fuel 0 (by simpa using hex)
    simp only [monitorRun, hx, Bool.false_eq_true, if_false]
    cases hw : waitForCells inp.pageObs inp.fuel 0 with
    | none => rw [hw] at hs; simp at hs
    | some cells =>
      dsimp only
      cases hrc : runCellsOps 0 cells emptyLast with
      | mk ops r => cases r <;> simp
  · intro hdone hcopy
    by_cases hx : inp.outputExists
    · simp [monitorRun, hx] at hdone
    · simp only [monitorRun, hx, Bool.false_eq_true, if_false] at hdone ⊢
      cases hw : waitForCells inp.pageObs inp.fuel 0 with
      | none => rw [hw] at hdone; simp at hdone
      | some cells =>
        rw [hw] at hdone
        dsimp only at hdone ⊢
        cases hrc : runCellsOps 0 cells emptyLast with
        | mk ops r =>
          rw [hrc] at hdone
          cases r with
          | none => simp at hdone
          | some last' => simp [hcopy]

/-- C8 counterexample: a run that finds an input cell terminates by itself
— no external kill — with the post-processing step executed. -/
theorem claim8_counterexample :
    (monitorRun ⟨false, fun _ => [⟨true, "x", []⟩], 1, true⟩).outcome
        = Outcome.completed ∧
    Effect.writeNotebook ∈ (monitorRun ⟨false, fun _ => [⟨true, "x", []⟩], 1, true⟩).effects := by
  refine ⟨by decide, by decide⟩

/-- C8 witness for the amended statement: a page that never shows input
cells keeps the discovery loop polling; one that does show a cell leaves
the loop, and the completed run post-processes. -/
theorem claim8_witness :
    waitForCells (fun _ => []) 3 0 = none ∧
    (monitorRun ⟨false, fun _ => [], 3, true⟩).outcome = Outcome.waiting ∧
    (monitorRun ⟨false, fun _ => [⟨true, "x", []⟩], 1, true⟩).outcome ≠ Outcome.waiting ∧
    Effect.writeNotebook ∈ (monitorRun ⟨false, fun _ => [⟨true, "x", []⟩], 1, true⟩).effects :=
  ⟨((claim8_amended_termination ⟨false, fun _ => [], 3, true⟩).1 (fun m => rfl)).1,
    ((claim8_amended_termination ⟨false, fun _ => [], 3, true⟩).1 (fun m => rfl)).2 rfl,
    (claim8_amended_termination ⟨false, fun _ => [⟨true, "x", []⟩], 1, true⟩).2.1
      ⟨0, by decide, by decide⟩ rfl,
    (claim8_amended_termination ⟨false, fun _ => [⟨true, "x", []⟩], 1, true⟩).2.2
      (by decide) rfl⟩

/-- C7: an executed cell whose group holds no output-changed record gets
`total = None` and `n_updates = None`, and its markdown annotation is the
"No output." text (which contains `No output.`) rather than a screenshot
reference with statistics. -/
theorem claim7_no_output (idx : Int) (r : CellResult) (h : r.outputChanged = []) :
    (finalize r).total = none ∧ (finalize r).n_updates = none ∧
    annotationFor idx (finalize r)
      = some ("#### Profiling result for cell " ++ toString idx ++ ": \nNo output.\n") ∧
    "No output.".data
      <:+: ("#### Profiling result for cell " ++ toString idx ++ ": \nNo output.\n").data := by
  refine ⟨by simp [finalize, totalOf, h], by simp [finalize, nUpdatesOf, h], ?_, ?_⟩
  · simp [annotationFor, finalize, h]
  · refine ⟨("#### Profiling result for cell " ++ toString idx ++ ": \n").data, "\n".data, ?_⟩
    simp only [String.data_append, List.append_assoc]
    have hchunk : (": \n".data : List Char) ++ ("No output.".data ++ "\n".data)
        = (": \nNo output.\n".data : List Char) := by decide
    rw [hchunk]

/-- C7 witness: a concrete cell with no output-changed records. -/
theorem claim7_witness :
    (finalize ⟨⟨0, "execute-input", 0, "p"⟩, []⟩).total = none ∧
    annotationFor 0 (finalize ⟨⟨0, "execute-input", 0, "p"⟩, []⟩)
      = some "#### Profiling result for cell 0: \nNo output.\n" :=
  ⟨(claim7_no_output 0 ⟨⟨0, "execute-input", 0, "p"⟩, []⟩ rfl).1,
    (claim7_no_output 0 ⟨⟨0, "execute-input", 0, "p"⟩, []⟩ rfl).2.2.1⟩

theorem lookupRes_cons_pos (p : Int × CellResult) (rest : List (Int × CellResult))
    (i : Int) (h : (p.1 == i) = true) : lookupRes (p :: rest) i = some p.2 := by
  simp [lookupRes, List.find?_cons, h]

theorem lookupRes_cons_neg (p : Int × CellResult) (rest : List (Int × CellResult))
    (i : Int) (h : (p.1 == i) = false) : lookupRes (p :: rest) i = lookupRes rest i := by
  simp [lookupRes, List.find?_cons, h]

theorem lookupRes_append (rs : List (Int × CellResult)) (i : Int) (v : CellResult)
    (h : lookupRes rs i = none) : lookupRes (rs ++ [(i, v)]) i = some v := by
  induction rs with
  | nil => simp [lookupRes, List.find?]
  | cons p rest ih =>
    by_cases hpi : (p.1 == i) = true
    · rw [lookupRes_cons_pos p rest i hpi] at h
      simp at h
    · have hpi' : (p.1 == i) = false := by simpa using hpi
      rw [lookupRes_cons_neg p rest i hpi'] at h
      rw [List.cons_append, lookupRes_cons_neg p _ i hpi']
      exact ih h

theorem lookupRes_update_self (rs : List (Int × CellResult)) (le : Int) (v : CellResult)
    (h : (lookupRes rs le).isSome = true) :
    lookupRes (updateRes rs le v) le = some v := by
  induction rs with
  | nil => simp [lookupRes] at h
  | cons p rest ih =>
    by_cases hp : (p.1 == le) = true
    · simp only [updateRes, List.map_cons, hp, if_true]
      rw [lookupRes_cons_pos (p.1, v) _ le hp]
    · have hp' : (p.1 == le) = false := by simpa using hp
      simp only [updateRes, List.map_cons, hp, Bool.false_eq_true, if_false]
      rw [lookupRes_cons_neg p _ le hp']
      rw [lookupRes_cons_neg p rest le hp'] at h
      exact ih h

theorem groupStep_inv (st : GroupState) (r : RawRow)
    (hinv : ∀ le, st.lastExecuted = some le → (lookupRes st.results le).isSome = true) :
    ∀ st', groupStep st r = some st' →
      ∀ le, st'.lastExecuted = some le → (lookupRes st'.results le).isSome = true := by
  intro st' h
  by_cases hb1 : lookupRes st.results r.index = none ∧ r.event = "execute-input"
  · rw [groupStep, if_pos hb1, Option.some.injEq] at h
    subst h
    intro le hle
    simp only at hle
    have hrle : r.index = le := by simpa using hle
    subst hrle
    rw [lookupRes_append _ _ _ hb1.1]
    rfl
  · rw [groupStep, if_neg hb1] at h
    by_cases hoc : r.event = "output-changed"
    · rw [if_pos hoc] at h
      cases hle0 : st.lastExecuted with
      | none => rw [hle0] at h; simp at h
      | some le0 =>
        rw [hle0] at h
        cases hlk : lookupRes st.results le0 with
        | none => simp [hlk] at h
        | some res =>
          simp only [hlk, Option.some.injEq] at h
          subst h
          intro le hle
          simp only [Option.some.injEq] at hle
          subst hle
          rw [lookupRes_update_self _ _ _ (by rw [hlk]; rfl)]
          rfl
    · rw [if_neg hoc, Option.some.injEq] at h
      subst h
      exact hinv

theorem groupStep_last_isSome (st : GroupState) (r : RawRow)
    (hs : st.lastExecuted.isSome = true) :
    ∀ st', groupStep st r = some st' → st'.lastExecuted.isSome = true := by
  intro st' h
  by_cases hb1 : lookupRes st.results r.index = none ∧ r.event = "execute-input"
  · rw [groupStep, if_pos hb1, Option.some.injEq] at h
    subst h
    rfl
  · rw [groupStep, if_neg hb1] at h
    by_cases hoc : r.event = "output-changed"
    · rw [if_pos hoc] at h
      cases hle0 : st.lastExecuted with
      | none => rw [hle0] at hs; simp at hs
      | some le0 =>
        rw [hle0] at h
        cases hlk : lookupRes st.results le0 with
        | none => simp [hlk] at h
        | some res =>
          simp only [hlk, Option.some.injEq] at h
          subst h
          simp
    · rw [if_neg hoc, Option.some.injEq] at h
      subst h
      exact hs

theorem groupStep_isSome (st : GroupState) (r : RawRow)
    (hinv : ∀ le, st.lastExecuted = some le → (lookupRes st.results le).isSome = true)
    (hs : st.lastExecuted.isSome = true) :
    (groupStep st r).isSome = true := by
  by_cases hb1 : lookupRes st.results r.index = none ∧ r.event = "execute-input"
  · rw [groupStep, if_pos hb1]
    rfl
  · rw [groupStep, if_neg hb1]
    by_cases hoc : r.event = "output-changed"
    · rw [if_pos hoc]
      cases hle0 : st.lastExecuted with
      | none => rw [hle0] at hs; simp at hs
      | some le0 =>
        cases hlk : lookupRes st.results le0 with
        | none =>
          have := hinv le0 hle0
          rw [hlk] at this
          simp at this
        | some res => simp [hlk]
    · rw [if_neg hoc]
      rfl

theorem groupRowsAux_isSome (rows : List RawRow) :
    ∀ st : GroupState,
      (∀ le, st.lastExecuted = some le → (lookupRes st.results le).isSome = true) →
      st.lastExecuted.isSome = true →
      (groupRowsAux st rows).isSome = true := by
  induction rows with
  | nil => intro st _ _; rfl
  | cons r rest ih =>
    intro st hinv hs
    have hstep := groupStep_isSome st r hinv hs
    cases hg : groupStep st r with
    | none => rw [hg] at hstep; simp at hstep
    | some st' =>
      have hinv' := groupStep_inv st r hinv st' hg
      have hs' := groupStep_last_isSome st r hs st' hg
      simpa [groupRowsAux, hg] using ih st' hinv' hs'

theorem groupRowsAux_execPrecedes (rows : List RawRow) :
    ∀ st : GroupState,
      (∀ le, st.lastExecuted = some le → (lookupRes st.results le).isSome = true) →
      (st.lastExecuted = none → st.results = []) →
      execPrecedes rows = true →
      (groupRowsAux st rows).isSome = true := by
  induction rows with
  | nil => intro st _ _ _; rfl
  | cons r rest ih =>
    intro st hinv hemp hprec
    cases hle : st.lastExecuted with
    | some le0 => exact groupRowsAux_isSome (r :: rest) st hinv (by rw [hle]; rfl)
    | none =>
      have hres : st.results = [] := hemp hle
      by_cases he : r.event = "execute-input"
      · have hb1 : lookupRes st.results r.index = none ∧ r.event = "execute-input" := by
          rw [hres]
          exact ⟨rfl, he⟩
        have hg : groupStep st r = some ⟨st.results ++ [(r.index, ⟨r, []⟩)], some r.index⟩ := by
          rw [groupStep, if_pos hb1]
        have hinv' : ∀ le, (some r.index : Option Int) = some le →
            (lookupRes (st.results ++ [(r.index, ⟨r, []⟩)]) le).isSome = true := by
          intro le hle'
          have : r.index = le := by simpa using hle'
          subst this
          rw [lookupRes_append _ _ _ hb1.1]
          rfl
        simp only [groupRowsAux, hg]
        exact groupRowsAux_isSome rest ⟨st.results ++ [(r.index, ⟨r, []⟩)], some r.index⟩
          hinv' rfl
      · by_cases hoc : r.event = "output-changed"
        · rw [execPrecedes, if_neg he, if_pos hoc] at hprec
          simp at hprec
        · have hb1 : ¬(lookupRes st.results r.index = none ∧ r.event = "execute-input") := by
            intro hand
            exact he hand.2
          have hg : groupStep st r = some st := by
            rw [groupStep, if_neg hb1, if_neg hoc]
          rw [execPrecedes, if_neg he, if_neg hoc] at hprec
          simp only [groupRowsAux, hg]
          exact ih st hinv hemp hprec

/-- C9: a log whose first data row is an output-changed record makes the
grouping loop fail (the `results[None]` KeyError, modelled as `none`);
when an execute-input record precedes every output-changed record the
grouping loop always succeeds, so that error branch is unreachable. -/
theorem claim9_attribution_safety (r : RawRow) (rows : List RawRow) :
    (r.event = "output-changed" → groupRows (r :: rows) = none) ∧
    (execPrecedes (r :: rows) = true → (groupRows (r :: rows)).isSome = true) := by
  constructor
  · intro he
    have hb1 : ¬(lookupRes (⟨[], none⟩ : GroupState).results r.index = none ∧
        r.event = "execute-input") := by
      intro hand
      rw [he] at hand
      simp at hand
    have hstep : groupStep ⟨[], none⟩ r = none := by
      rw [groupStep, if_neg hb1, if_pos he]
    simp [groupRows, groupRowsAux, hstep]
  · intro hp
    exact groupRowsAux_execPrecedes (r :: rows) ⟨[], none⟩ (by intro le h; simp at h)
      (fun _ => rfl) hp

/-- C9 witness: a leading output-changed row crashes the grouping; a log
where the execute-input row comes first groups fine. -/
theorem claim9_witness :
    groupRows [⟨0, "output-changed", 0, "s"⟩] = none ∧
    (groupRows [⟨0, "execute-input", 0, "s"⟩, ⟨1, "output-changed", 0, "t"⟩]).isSome
      = true :=
  ⟨(claim9_attribution_safety ⟨0, "output-changed", 0, "s"⟩ []).1 rfl,
    (claim9_attribution_safety ⟨0, "execute-input", 0, "s"⟩
      [⟨1, "output-changed", 0, "t"⟩]).2 (by decide)⟩

/-- C10: a second execute-input record with an index already in the
results is ignored entirely: the state is unchanged — the stored
execute-input row is kept and the most-recent executed cell is not
updated — so any following row is processed exactly as if the duplicate
record were absent (in particular output-changed rows are still
attributed, and their `dt` computed, against the earlier record). -/
theorem claim10_duplicate_execute (st : GroupState) (row r2 : RawRow)
    (he : row.event = "execute-input")
    (hin : (lookupRes st.results row.index).isSome = true) :
    groupStep st row = some st ∧
    (groupStep st row).bind (fun st1 => groupStep st1 r2) = groupStep st r2 := by
  have hb1 : ¬(lookupRes st.results row.index = none ∧ row.event = "execute-input") := by
    intro hand
    rw [hand.1] at hin
    simp at hin
  have hoc : ¬(row.event = "output-changed") := by
    rw [he]
    simp
  have h1 : groupStep st row = some st := by
    rw [groupStep, if_neg hb1, if_neg hoc]
  exact ⟨h1, by rw [h1]; rfl⟩

/-- C10 witness: a duplicate execute-input for index 0 leaves the state
untouched and the next output-changed row is processed identically. -/
theorem claim10_witness :
    groupStep ⟨[(0, ⟨⟨0, "execute-input", 0, "p"⟩, []⟩)], some 0⟩
        ⟨5, "execute-input", 0, "q"⟩
      = some ⟨[(0, ⟨⟨0, "execute-input", 0, "p"⟩, []⟩)], some 0⟩ ∧
    (groupStep ⟨[(0, ⟨⟨0, "execute-input", 0, "p"⟩, []⟩)], some 0⟩
        ⟨5, "execute-input", 0, "q"⟩).bind
        (fun st1 => groupStep st1 ⟨6, "output-changed", 1, "r"⟩)
      = groupStep ⟨[(0, ⟨⟨0, "execute-input", 0, "p"⟩, []⟩)], some 0⟩
          ⟨6, "output-changed", 1, "r"⟩ :=
  ⟨(claim10_duplicate_execute ⟨[(0, ⟨⟨0, "execute-input", 0, "p"⟩, []⟩)], some 0⟩
      ⟨5, "execute-input", 0, "q"⟩ ⟨6, "output-changed", 1, "r"⟩ rfl (by decide)).1,
    (claim10_duplicate_execute ⟨[(0, ⟨⟨0, "execute-input", 0, "p"⟩, []⟩)], some 0⟩
      ⟨5, "execute-input", 0, "q"⟩ ⟨6, "output-changed", 1, "r"⟩ rfl (by decide)).2⟩

end JupyterOutputMonitor

